import Mathlib

/-!
Verification development for the core of a Lightning-style payment-channel
daemon: the routing engine (src/daemon/routing.c) and the peer protocol
packet handlers (src/daemon/packets.c).

Machine integers are embedded as `Nat`/`Int` with explicit reduction
modulo 2^64 at the points where the C code can wrap.  External
collaborators (crypto primitives, the commitment-transaction builder, the
balance engine in channel.c, protobuf decoding) are not part of the two
source files; they are represented by oracle functions gathered in an
`Env` structure, or modelled from the specification where noted.
-/

/-! ## Machine-integer helpers -/

/-- Modulus of 64-bit machine arithmetic. -/
def U64MOD : Nat := 2 ^ 64

/-- Value of a u64 bit pattern read as an s64 (two's complement). -/
def s64_of_u64 (n : Nat) : Int :=
  if n < 2 ^ 63 then (n : Int) else (n : Int) - 2 ^ 64

/-- Conversion of an integer value to u64: reduction modulo 2^64
(C conversion of a signed value to an unsigned type). -/
def u64_of_int (x : Int) : Nat :=
  (x % (U64MOD : Int)).toNat

/-! ## Routing engine data model (routing.c) -/

/-- A directed edge of the routing graph (struct node_connection,
routing.h).  Field widths follow the spec's data model: `base_fee` u32,
`proportional_fee` s32, `delay` u32, `min_blocks` u32.  Endpoints are
node identifiers. -/
structure node_connection where
  src : Nat
  dst : Nat
  base_fee : Nat
  proportional_fee : Int
  delay : Nat
  min_blocks : Nat
deriving DecidableEq

/-- The routing graph.  The C code keeps per-node `in`/`out` arrays of
pointers into a shared set of connections; following the spec's §9 design
note we represent the edges as one central list in creation order (a
node's `in` array is the sublist of connections whose `dst` is that node,
in the same order), and the node map as the list of known node ids in
creation order. -/
structure RGraph where
  nodes : List Nat
  conns : List node_connection
deriving DecidableEq

/-- Sentinel from routing.c:216: too big to reach, but adding two does not
overflow signed 64-bit. -/
def INFINITE : Int := 0x3FFFFFFFFFFFFFFF

/-- BLOCKS_PER_YEAR from routing.c:15. -/
def BLOCKS_PER_YEAR : Nat := 52596

/-- Modelled from the spec: `mul_overflows_s64` lives in overflows.h,
which is not among the source files.  The spec says the fee computation
"saturates to INFINITE when multiplication would overflow signed 64-bit",
so the predicate is the mathematical overflow test. -/
def mul_overflows_s64 (a b : Int) : Bool :=
  decide (a * b < -(2 ^ 63 : Int)) || decide ((2 ^ 63 : Int) ≤ a * b)

/-- connection_fee from routing.c:232-241.  The C multiplies the s32
`proportional_fee` by the u64 `msatoshi`: the usual arithmetic
conversions turn the s32 into a u64 (modulo 2^64), the product wraps at
2^64, the division is unsigned, and the result is stored into an s64. -/
def connection_fee (c : node_connection) (msatoshi : Nat) : Int :=
  if mul_overflows_s64 c.proportional_fee msatoshi then INFINITE
  else
    let fee : Nat := u64_of_int c.proportional_fee * msatoshi % U64MOD / 1000000
    c.base_fee + s64_of_u64 fee

/-- risk_fee from routing.c:245-252.  The C takes a `double` riskfactor;
we embed integer risk factors, for which the two integer divisions agree
with the C evaluation at the magnitudes the daemon handles (the claims
under verification do not depend on the risk term's rounding). -/
def risk_fee (amount : Int) (delay : Nat) (riskfactor : Nat) : Int :=
  if amount < 0 then 1
  else 1 + amount * delay * riskfactor / BLOCKS_PER_YEAR / 10000

/-- One per-node, per-path-length entry of the Bellman-Ford-Gibson
scratch table (the `bfg` array member of struct node).  The field types
are not in the source files; following the spec (INFINITE is "chosen so
that adding two of them does not overflow signed 64-bit") we embed the
totals and risks as mathematical integers with s64 semantics. -/
structure BfgEntry where
  total : Int
  risk : Int
  prev : Option Nat
deriving DecidableEq

/-- The whole scratch table: node id and path length to entry. -/
abbrev Bfg := Nat → Nat → BfgEntry

/-- clear_bfg from routing.c:218-230: for every node of the map and every
index of the `bfg` array (the spec fixes the array as
`bfg[0..=ROUTING_MAX_HOPS]`), set `total := INFINITE` and `risk := 0`.
The C loop does not touch `prev`. -/
def clear_bfg (g : RGraph) (maxHops : Nat) (t : Bfg) : Bfg :=
  fun nid h =>
    if nid ∈ g.nodes ∧ h ≤ maxHops then
      { total := INFINITE, risk := 0, prev := (t nid h).prev }
    else t nid h

/-- The assignment at routing.c:303-304: find_route seeds the source of
the backwards search (the payment destination) with
`bfg[0].total := msatoshi` and `bfg[0].risk := 0`.  `prev` is not
assigned. -/
def bfg_set_source (toId : Nat) (msatoshi : Nat) (t : Bfg) : Bfg :=
  fun nid h =>
    if nid = toId ∧ h = 0 then
      { total := (msatoshi : Int), risk := 0, prev := (t nid h).prev }
    else t nid h

/-- bfg_one_edge from routing.c:256-274, relaxing one connection `c`
(whose index in the central list is `cIdx`) for every path length
`h ∈ [0, ROUTING_MAX_HOPS)`.  The C passes the s64 total as the u64
`msatoshi` argument of connection_fee (conversion modulo 2^64). -/
def bfg_one_edge (c : node_connection) (cIdx : Nat) (riskfactor : Nat)
    (maxHops : Nat) (t : Bfg) : Bfg :=
  (List.range maxHops).foldl
    (fun t h =>
      let e := t c.dst h
      let fee := connection_fee c (u64_of_int e.total)
      let risk := e.risk + risk_fee (e.total + fee) c.delay riskfactor
      let s := t c.src (h + 1)
      if e.total + fee + risk < s.total + s.risk then
        fun nid hh =>
          if nid = c.src ∧ hh = h + 1 then
            { total := e.total + fee, risk := risk, prev := some cIdx }
          else t nid hh
      else t)
    t

/-- The incoming connections of a node, paired with their indices in the
central list (the node's `in` array, in order). -/
def bfg_in_conns (g : RGraph) (nid : Nat) : List (Nat × node_connection) :=
  g.conns.enum.filter (fun p => p.2.dst = nid)

/-- One pass of the loop at routing.c:306-327: run through every node and
every incoming edge. -/
def bfg_pass (g : RGraph) (riskfactor maxHops : Nat) (t : Bfg) : Bfg :=
  g.nodes.foldl
    (fun t nid =>
      (bfg_in_conns g nid).foldl
        (fun t p => bfg_one_edge p.2 p.1 riskfactor maxHops t) t)
    t

/-- ROUTING_MAX_HOPS passes of relaxation (routing.c:306). -/
def bfg_run (g : RGraph) (riskfactor maxHops : Nat) (t : Bfg) : Bfg :=
  (List.range maxHops).foldl (fun t _ => bfg_pass g riskfactor maxHops t) t

/-- The table find_route computes before selecting a route: clear,
seed the payment destination `toId`, then relax. -/
def bfg_table (g : RGraph) (toId msatoshi riskfactor maxHops : Nat)
    (t : Bfg) : Bfg :=
  bfg_run g riskfactor maxHops (bfg_set_source toId msatoshi (clear_bfg g maxHops t))

/-- The selection loop at routing.c:329-333: best starts at 0 and is
replaced by i ∈ [1, ROUTING_MAX_HOPS] exactly when
`bfg[i].total < bfg[best].total` (strict comparison). -/
def select_best (t : Bfg) (localId maxHops : Nat) : Nat :=
  (List.range maxHops).foldl
    (fun best i =>
      if (t localId (i + 1)).total < (t localId best).total then i + 1 else best)
    0

/-- The route-recovery loop at routing.c:350-354: starting at the node
after the first hop with `steps` hops left, collect
`n->bfg[steps].prev` and step to that connection's `dst`.  The C
dereferences the `prev` pointer; a missing entry (modelled as `none`)
would be a wild dereference, embedded as an overall `none`. -/
def walk_prev (g : RGraph) (t : Bfg) : Nat → Nat → Option (List Nat × Nat)
  | n, 0 => some ([], n)
  | n, steps + 1 =>
    match (t n (steps + 1)).prev with
    | none => none
    | some cIdx =>
      match g.conns.get? cIdx with
      | none => none
      | some c =>
        match walk_prev g t c.dst steps with
        | none => none
        | some (l, fin) => some (cIdx :: l, fin)

/-- The result of a successful find_route: the peer the first hop goes to
(the C returns `struct peer *first` for that node), the reported fee, and
the connection indices of the remaining hops (the C `*route` array, which
excludes the first hop). -/
structure RouteResult where
  firstPeer : Nat
  fee : Int
  route : List Nat
deriving DecidableEq

/-- find_route from routing.c:276-383.  `localId` is the daemon's own
node (`dstate->id`, assumed present in the node map: the C dereferences
it unconditionally), `toId` the payment destination, `hasPeer` the
find_peer oracle.  `t` is the scratch table as left by earlier queries
(the C arrays persist between calls). -/
def find_route (g : RGraph) (localId toId : Nat) (msatoshi : Nat)
    (riskfactor maxHops : Nat) (hasPeer : Nat → Bool) (t : Bfg) :
    Option RouteResult :=
  if toId ∈ g.nodes then
    let tb := bfg_table g toId msatoshi riskfactor maxHops t
    let best := select_best tb localId maxHops
    if INFINITE ≤ (tb localId best).total then none
    else
      match (tb localId best).prev with
      | none => none
      | some cIdx =>
        match g.conns.get? cIdx with
        | none => none
        | some c =>
          let best' := best - 1
          let fee := (tb c.dst best').total - (msatoshi : Int)
          match walk_prev g tb c.dst best' with
          | none => none
          | some (route, _) =>
            if hasPeer c.dst then
              some { firstPeer := c.dst, fee := fee, route := route }
            else none
  else none

/-! ## Routing graph maintenance (routing.c:118-213) -/

/-- new_node from routing.c:56-72: record a fresh node id in the map. -/
def new_node (g : RGraph) (id : Nat) : RGraph :=
  { g with nodes := g.nodes ++ [id] }

/-- The predicate get_or_make_connection scans `to->in` with: the
connection belongs to the pair when its `src` is `from` (its `dst` is
`to` by virtue of being in `to->in`). -/
def conn_matches (f t : Nat) (c : node_connection) : Bool :=
  c.dst = t && c.src = f

/-- get_or_make_connection from routing.c:118-165: make both endpoint
nodes exist, return the index of the first connection of the ordered pair
if there is one, and otherwise append a fresh connection (whose fee and
delay fields the C leaves uninitialized; add_connection assigns them all
immediately, so the placeholder values below are never observable). -/
def get_or_make_connection (g : RGraph) (f t : Nat) : RGraph × Nat :=
  let g1 := if f ∈ g.nodes then g else new_node g f
  let g2 := if t ∈ g1.nodes then g1 else new_node g1 t
  match g2.conns.findIdx? (conn_matches f t) with
  | some i => (g2, i)
  | none =>
    ({ g2 with
        conns := g2.conns ++
          [{ src := f, dst := t, base_fee := 0, proportional_fee := 0,
             delay := 0, min_blocks := 0 }] },
      g2.conns.length)

/-- add_connection from routing.c:168-180: upsert the connection of the
ordered pair and overwrite its four parameter fields. -/
def add_connection (g : RGraph) (f t : Nat)
    (base_fee : Nat) (proportional_fee : Int) (delay min_blocks : Nat) :
    RGraph :=
  let gi := get_or_make_connection g f t
  { gi.1 with
    conns := gi.1.conns.set gi.2
      { src := f, dst := t, base_fee := base_fee,
        proportional_fee := proportional_fee, delay := delay,
        min_blocks := min_blocks } }

/-- The connections a graph holds for one ordered pair. -/
def pair_conns (g : RGraph) (f t : Nat) : List node_connection :=
  g.conns.filter (conn_matches f t)

/-! ## Channel balance state (packets.c uses it through channel.h) -/

/-- One escrowed HTLC entry of a side (spec data model:
`(msatoshis, expiry, rhash)`). -/
structure channel_htlc where
  msatoshis : Nat
  expiry : Nat
  rhash : Nat
deriving DecidableEq

/-- One side of the channel balance state.  `pay_msat` and `fee_msat`
are u32 in the source (the fatal diagnostic prints them with %u). -/
structure channel_oneside where
  pay_msat : Nat
  fee_msat : Nat
  htlcs : List channel_htlc
deriving DecidableEq

/-- The two-sided channel balance state (`struct channel_state`):
`a` is our side, `b` theirs. -/
structure channel_state where
  a : channel_oneside
  b : channel_oneside
deriving DecidableEq

/-- total_funds from packets.c:426-434: a u64 accumulator starting at
`(u64)pay_msat + fee_msat` (no wrap: both are u32) to which every HTLC's
msatoshis are added with u64 wrap-around. -/
def total_funds (c : channel_oneside) : Nat :=
  c.htlcs.foldl (fun total h => (total + h.msatoshis) % U64MOD)
    (c.pay_msat + c.fee_msat)

/-! ## Peer state (packets.c uses it through peer.h) -/

/-- Who offers the anchor (CMD_OPEN_WITH_ANCHOR / CMD_OPEN_WITHOUT_ANCHOR). -/
inductive AnchorCmd where
  | openWithAnchor
  | openWithoutAnchor
deriving DecidableEq

/-- A decoded relative locktime (struct rel_locktime): the protocol
carries either seconds or blocks. -/
inductive rel_locktime where
  | seconds (n : Nat)
  | blocks (n : Nat)
deriving DecidableEq

/-- A signature with its sighash type (struct bitcoin_signature: field
`stype` plus the raw signature, which we embed abstractly). -/
structure signature_wt where
  stype : Nat
  sig : Nat
deriving DecidableEq

/-- SIGHASH_ALL. -/
def SIGHASH_ALL : Nat := 1

/-- The symmetric per-side record (struct peer_visible_state): keys,
locktime, mindepth, commitment fee, anchor offer, current revocation
hash, and the current commitment transaction (embedded abstractly). -/
structure peer_oneside where
  commitkey : Nat
  finalkey : Nat
  locktime : rel_locktime
  mindepth : Nat
  commit_fee : Nat
  offer_anchor : AnchorCmd
  revocation_hash : Nat
  commit : Nat
deriving DecidableEq

/-- The in-flight HTLC update (struct htlc_progress): the staged cstate,
both new commitment transactions, both new revocation hashes, the peer's
signature once received, and the HTLC parameters. -/
structure htlc_progress where
  msatoshis : Nat
  rhash : Nat
  their_revocation_hash : Nat
  our_revocation_hash : Nat
  expiry : Nat
  cstate : channel_state
  our_commit : Nat
  their_commit : Nat
  their_sig : signature_wt
deriving DecidableEq

/-- The anchor data the handlers touch (txid, output index, amount,
2-of-2 redeemscript, the last embedded abstractly). -/
structure anchor_info where
  txid : Nat
  index : Nat
  satoshis : Nat
  redeemscript : Nat
deriving DecidableEq

/-- The slice of struct peer the two source files read and write. -/
structure peer where
  us : peer_oneside
  them : peer_oneside
  anchor : anchor_info
  cstate : channel_state
  current_htlc : Option htlc_progress
  num_htlcs : Nat
deriving DecidableEq

/-! ## External collaborators (spec §6), embedded as oracles -/

/-- The interfaces the handlers consume but which live outside the two
source files: crypto checks, SHA-256, the revocation chain, the
commitment builder (commit_tx.c), the balance engine's funding_delta
(channel.c), the 2-of-2 script builder, and the three configuration
limits read by accept_pkt_open. -/
structure Env where
  check_tx_sig : Nat → Nat → Nat → Nat → signature_wt → Bool
  sha256 : Nat → Nat
  peer_get_revocation_hash : Nat → Nat
  make_commit_txs : Nat → Nat → channel_state → Nat × Nat
  funding_delta : Bool → Nat → Int → Int → channel_oneside → channel_oneside →
    Option (channel_oneside × channel_oneside)
  bitcoin_redeem_2of2 : Nat → Nat → Nat
  rel_locktime_max : Nat
  anchor_confirms_max : Nat
  commitment_fee_min : Nat

/-- Modelled from the spec: channel.c is not among the source files; §4.1
says `add_htlc(side, msatoshis, expiry, rhash)` appends an HTLC entry to
`side.htlcs`. -/
def funding_add_htlc (side : channel_oneside) (msat expiry rhash : Nat) :
    channel_oneside :=
  { side with htlcs := side.htlcs ++ [{ msatoshis := msat, expiry := expiry, rhash := rhash }] }

/-! ## Wire packets (shapes as used by packets.c; the lightning.pb-c.h in
the source tree is a later protocol revision that no longer declares
these messages, so the fields are taken from the handlers' accesses) -/

/-- A protobuf Locktime: a tagged union of seconds or blocks, or not set. -/
inductive locktime_proto where
  | seconds (n : Nat)
  | blocks (n : Nat)
  | notSet
deriving DecidableEq

/-- A wire pubkey together with whether proto_to_pubkey can decode it. -/
structure proto_pubkey where
  valid : Bool
  key : Nat
deriving DecidableEq

/-- A wire signature together with whether proto_to_signature can decode it. -/
structure proto_sig where
  valid : Bool
  sig : Nat
deriving DecidableEq

/-- OpenChannel.anch on the wire (any third value is rejected by
accept_pkt_open). -/
inductive anchor_offer where
  | willCreateAnchor
  | wontCreateAnchor
  | unknownOffer
deriving DecidableEq

/-- The OpenChannel message fields accept_pkt_open reads. -/
structure OpenChannelPkt where
  delay : locktime_proto
  revocation_hash : Nat
  commit_key : proto_pubkey
  final_key : proto_pubkey
  anch : anchor_offer
  min_depth : Nat
  commitment_fee : Nat
deriving DecidableEq

/-- The UpdateAddHtlc message fields accept_pkt_htlc_update reads. -/
structure UpdateAddHtlcPkt where
  revocation_hash : Nat
  amount_msat : Nat
  r_hash : Nat
  expiry : locktime_proto
deriving DecidableEq

/-- The UpdateSignature message fields accept_pkt_update_signature reads. -/
structure UpdateSignaturePkt where
  sig : proto_sig
  revocation_preimage : Nat
deriving DecidableEq

/-- The UpdateComplete message fields (accept_pkt_update_complete reads
none of them). -/
structure UpdateCompletePkt where
  revocation_preimage : Nat
deriving DecidableEq

/-- Modelled from the spec: protobuf_convert.c is not among the source
files.  Decoding a relative locktime succeeds for either arm of the
union and fails when the case tag is not set. -/
def proto_to_rel_locktime : locktime_proto → Option rel_locktime
  | .seconds n => some (.seconds n)
  | .blocks n => some (.blocks n)
  | .notSet => none

/-- Modelled from the spec: as proto_to_rel_locktime, for absolute
locktimes (the handlers only store the decoded value). -/
def proto_to_abs_locktime : locktime_proto → Option Nat
  | .seconds n => some n
  | .blocks n => some n
  | .notSet => none

/-! ## Handler results -/

/-- What a packet handler invocation does to the peer.  The C mutates the
peer in place and returns NULL on success or the result of pkt_err on
failure, so every outcome carries the peer as left behind; `fatal` is the
process-killing diagnostic of fatal()/assert. -/
inductive handler_result where
  | ok (p : peer)
  | errPkt (problem : String) (p : peer)
  | fatal
deriving DecidableEq

/-- What the body of pkt_err can do. -/
inductive pkt_err_outcome where
  | abortProcess
  | errorPacket (problem : String)
deriving DecidableEq

/-- pkt_err from packets.c:215-218: despite its interface (handlers do
`return pkt_err(ctx, "problem")` expecting an Error packet carrying the
string), its body is `abort()`. -/
def pkt_err (_problem : String) : pkt_err_outcome :=
  .abortProcess

/-- The process-level outcome of a handler invocation: a handler result
of `errPkt problem p` records that control reached a
`return pkt_err(ctx, problem)` statement with the peer left as `p`;
composing with the body of pkt_err yields what the process then does. -/
inductive process_outcome where
  | continues (r : handler_result)
  | aborted
deriving DecidableEq

/-- Compose a handler's control flow with the body of pkt_err. -/
def run_handler (r : handler_result) : process_outcome :=
  match r with
  | .errPkt problem p =>
    match pkt_err problem with
    | .abortProcess => .aborted
    | .errorPacket s => .continues (.errPkt s p)
  | r => .continues r

/-! ## Packet handlers (packets.c) -/

/-- accept_pkt_open from packets.c:241-285.  The C mutates the `them`
record field by field between its checks, so a failing check can leave
the record partially overwritten; the embedding threads the successive
peer values.  The inner arms marked unreachable totalize matches that the
preceding check already excluded. -/
def accept_pkt_open (env : Env) (p : peer) (o : OpenChannelPkt) :
    handler_result :=
  match proto_to_rel_locktime o.delay with
  | none => .errPkt "Invalid delay" p
  | some _ =>
    match o.delay with
    | .blocks _ => .errPkt "Delay in blocks not accepted" p
    | .notSet => .errPkt "Delay in blocks not accepted" p
    | .seconds secs =>
      if env.rel_locktime_max < secs then .errPkt "Delay too great" p
      else if env.anchor_confirms_max < o.min_depth then
        .errPkt "min_depth too great" p
      else if o.commitment_fee < env.commitment_fee_min then
        .errPkt "Commitment fee too low" p
      else
        match (match o.anch with
               | .willCreateAnchor => some AnchorCmd.openWithAnchor
               | .wontCreateAnchor => some AnchorCmd.openWithoutAnchor
               | .unknownOffer => none) with
        | none => .errPkt "Unknown offer anchor value" p
        | some oa =>
          let p1 := { p with them := { p.them with offer_anchor := oa } }
          if p1.them.offer_anchor = p1.us.offer_anchor then
            .errPkt "Only one side can offer anchor" p1
          else
            match proto_to_rel_locktime o.delay with
            | none => .errPkt "Malformed locktime" p1
            | some lt =>
              let p2 := { p1 with them := { p1.them with
                locktime := lt, mindepth := o.min_depth,
                commit_fee := o.commitment_fee } }
              if o.commit_key.valid = false then .errPkt "Bad commitkey" p2
              else
                let p3 := { p2 with them := { p2.them with
                  commitkey := o.commit_key.key } }
                if o.final_key.valid = false then .errPkt "Bad finalkey" p3
                else
                  let p4 := { p3 with them := { p3.them with
                    finalkey := o.final_key.key,
                    revocation_hash := o.revocation_hash } }
                  .ok { p4 with anchor := { p4.anchor with
                    redeemscript :=
                      env.bitcoin_redeem_2of2 p4.us.commitkey p4.them.commitkey } }

/-- accept_pkt_htlc_update from packets.c:360-406.  The staged
htlc_progress is built off to the side (copy_funding makes a deep copy of
the cstate, which in a pure embedding is the value itself); on any
failure it is freed and the peer is untouched.  The C asserts
`!peer->current_htlc` immediately before installing the proposal.  The
`their_sig` field of the fresh htlc_progress is uninitialized in the C
until a later packet writes it; the embedding fills in zeroes. -/
def accept_pkt_htlc_update (env : Env) (p : peer) (u : UpdateAddHtlcPkt) :
    handler_result :=
  match proto_to_abs_locktime u.expiry with
  | none => .errPkt "Invalid HTLC expiry" p
  | some expiry =>
    match env.funding_delta (p.them.offer_anchor = .openWithAnchor)
        p.anchor.satoshis 0 (u.amount_msat : Int) p.cstate.b p.cstate.a with
    | none =>
      .errPkt ("Cannot afford " ++ toString u.amount_msat ++ " milli-satoshis") p
    | some sides =>
      let cs : channel_state :=
        { a := sides.2,
          b := funding_add_htlc sides.1 u.amount_msat expiry u.r_hash }
      let our_rev := env.peer_get_revocation_hash (p.num_htlcs + 1)
      let txs := env.make_commit_txs our_rev u.revocation_hash cs
      let cur : htlc_progress :=
        { msatoshis := u.amount_msat, rhash := u.r_hash,
          their_revocation_hash := u.revocation_hash,
          our_revocation_hash := our_rev, expiry := expiry, cstate := cs,
          our_commit := txs.1, their_commit := txs.2,
          their_sig := { stype := 0, sig := 0 } }
      if p.current_htlc.isSome then .fatal
      else .ok { p with current_htlc := some cur }

/-- Modelled from the spec: the state-machine dispatch lives in state.c,
which is not among the source files.  Spec §4.4: "Exactly one HTLC
proposal may be pending per peer.  A second `update_add_htlc` before the
current one completes is rejected as unexpected" — i.e. the state machine
answers it with pkt_err_unexpected and leaves the peer alone, and
accept_pkt_htlc_update is reached only when no proposal is pending. -/
def dispatch_update_add_htlc (env : Env) (p : peer) (u : UpdateAddHtlcPkt) :
    handler_result :=
  if p.current_htlc.isSome then .errPkt "Unexpected packet" p
  else accept_pkt_htlc_update env p u

/-- update_to_new_htlcs from packets.c:436-465: check that the staged
cstate conserves the channel's total funds (u64 arithmetic; a violation
is the fatal diagnostic), then replace cstate, both commitment
transactions and both revocation hashes with the staged ones and
increment num_htlcs.  The C dereferences peer->current_htlc, so a peer
with no pending proposal has no defined result. -/
def update_to_new_htlcs (p : peer) : Option handler_result :=
  match p.current_htlc with
  | none => none
  | some cur =>
    if (total_funds p.cstate.a + total_funds p.cstate.b) % U64MOD ≠
        (total_funds cur.cstate.a + total_funds cur.cstate.b) % U64MOD then
      some .fatal
    else
      some (.ok { p with
        cstate := cur.cstate,
        us := { p.us with commit := cur.our_commit,
                          revocation_hash := cur.our_revocation_hash },
        them := { p.them with commit := cur.their_commit,
                              revocation_hash := cur.their_revocation_hash },
        num_htlcs := p.num_htlcs + 1 })

/-- check_preimage from packets.c:500-507: SHA-256 the revealed preimage
and compare with the expected hash. -/
def check_preimage (env : Env) (preimage hash : Nat) : Bool :=
  env.sha256 preimage == hash

/-- accept_pkt_update_complete from packets.c:509-514: the body is
`/* FIXME: Check preimage against old tx! */ return NULL;` — it accepts
unconditionally and performs no preimage check. -/
def accept_pkt_update_complete (_env : Env) (p : peer)
    (_u : UpdateCompletePkt) : handler_result :=
  .ok p

/-- accept_pkt_update_signature from packets.c:516-544.  The C writes
`cur->their_sig.stype` and (on successful decode) `cur->their_sig.sig`
into the pending htlc_progress before either verification runs, then
checks the signature over our new commitment transaction, then the
revocation preimage, and only then swaps state via update_to_new_htlcs.
It dereferences peer->current_htlc, so a peer with no pending proposal
has no defined result. -/
def accept_pkt_update_signature (env : Env) (p : peer)
    (s : UpdateSignaturePkt) : Option handler_result :=
  match p.current_htlc with
  | none => none
  | some cur =>
    let cur1 := { cur with their_sig := { cur.their_sig with stype := SIGHASH_ALL } }
    let p1 := { p with current_htlc := some cur1 }
    if s.sig.valid = false then some (.errPkt "Malformed signature" p1)
    else
      let cur2 := { cur1 with their_sig := { stype := SIGHASH_ALL, sig := s.sig.sig } }
      let p2 := { p with current_htlc := some cur2 }
      if env.check_tx_sig cur2.our_commit 0 p.anchor.redeemscript
          p.them.commitkey cur2.their_sig = false then
        some (.errPkt "Bad signature" p2)
      else if check_preimage env s.revocation_preimage p.them.revocation_hash = false then
        some (.errPkt "Bad revocation preimage" p2)
      else
        update_to_new_htlcs p2

/-! ## Concrete fixtures used by witnesses and counterexamples -/

/-- A concrete oracle environment. -/
def envW : Env :=
  { check_tx_sig := fun _ _ _ _ _ => true,
    sha256 := fun x => x + 1,
    peer_get_revocation_hash := fun n => n + 50,
    make_commit_txs := fun a b _ => (a + 100, b + 200),
    funding_delta := fun _ _ _ _ x y => some (x, y),
    bitcoin_redeem_2of2 := fun a b => a * 1000 + b,
    rel_locktime_max := 10000,
    anchor_confirms_max := 10,
    commitment_fee_min := 100 }

/-- A concrete per-side record. -/
def sideW : peer_oneside :=
  { commitkey := 1, finalkey := 2, locktime := .seconds 3600, mindepth := 1,
    commit_fee := 5, offer_anchor := .openWithAnchor, revocation_hash := 10,
    commit := 20 }

/-- A concrete current channel state: 600 + 400 + 0 + 0 = 1000 msat. -/
def csW : channel_state :=
  { a := { pay_msat := 600, fee_msat := 400, htlcs := [] },
    b := { pay_msat := 0, fee_msat := 0, htlcs := [] } }

/-- A staged channel state conserving the 1000 msat total:
100 + 400 + 200 + 0 + 300 = 1000. -/
def csW' : channel_state :=
  { a := { pay_msat := 100, fee_msat := 400, htlcs := [] },
    b := { pay_msat := 200, fee_msat := 0,
           htlcs := [{ msatoshis := 300, expiry := 9, rhash := 9 }] } }

/-- A concrete pending HTLC update staging csW'. -/
def curW : htlc_progress :=
  { msatoshis := 300, rhash := 9, their_revocation_hash := 11,
    our_revocation_hash := 12, expiry := 9, cstate := csW',
    our_commit := 21, their_commit := 22, their_sig := { stype := 0, sig := 0 } }

/-- A concrete peer with the pending update curW. -/
def pW : peer :=
  { us := sideW,
    them := { sideW with offer_anchor := .openWithoutAnchor, commitkey := 3,
                         finalkey := 4, revocation_hash := 10, commit := 23 },
    anchor := { txid := 40, index := 0, satoshis := 1, redeemscript := 99 },
    cstate := csW, current_htlc := some curW, num_htlcs := 4 }

/-! ## Claim C1: update_to_new_htlcs checks conservation, then swaps -/

/-- Claim C1: a commit of a pending HTLC update via update_to_new_htlcs
first checks the conservation invariant — total_funds(a) + total_funds(b)
of the current cstate equals that of the staged cstate (u64 arithmetic) —
aborting with the fatal diagnostic when it fails, and only when it holds
replaces cstate, us.commit, them.commit and both revocation hashes in one
operation, incrementing num_htlcs. -/
theorem claim_C1_update_to_new_htlcs (p : peer) (cur : htlc_progress)
    (h : p.current_htlc = some cur) :
    ((total_funds p.cstate.a + total_funds p.cstate.b) % U64MOD ≠
        (total_funds cur.cstate.a + total_funds cur.cstate.b) % U64MOD →
      update_to_new_htlcs p = some .fatal) ∧
    ((total_funds p.cstate.a + total_funds p.cstate.b) % U64MOD =
        (total_funds cur.cstate.a + total_funds cur.cstate.b) % U64MOD →
      update_to_new_htlcs p = some (.ok { p with
        cstate := cur.cstate,
        us := { p.us with commit := cur.our_commit,
                          revocation_hash := cur.our_revocation_hash },
        them := { p.them with commit := cur.their_commit,
                              revocation_hash := cur.their_revocation_hash },
        num_htlcs := p.num_htlcs + 1 })) := by
  unfold update_to_new_htlcs
  rw [h]
  constructor
  · intro hc
    simp [hc]
  · intro hc
    simp [hc]

/-- Witness for claim C1 at the concrete peer pW (totals conserved). -/
theorem claim_C1_witness :
    pW.current_htlc = some curW ∧
    update_to_new_htlcs pW = some (.ok { pW with
      cstate := curW.cstate,
      us := { pW.us with commit := curW.our_commit,
                         revocation_hash := curW.our_revocation_hash },
      them := { pW.them with commit := curW.their_commit,
                             revocation_hash := curW.their_revocation_hash },
      num_htlcs := pW.num_htlcs + 1 }) :=
  ⟨rfl, (claim_C1_update_to_new_htlcs pW curW rfl).2 (by decide)⟩

/-! ## Claim C2: error handling is supposed to emit error packets -/

/-- A peer that offers the anchor itself, about to receive an open packet
that also offers the anchor. -/
def pW2 : peer := { pW with current_htlc := none }

/-- The offending open packet: both sides offer the anchor; everything
else is acceptable to the earlier checks. -/
def oW2 : OpenChannelPkt :=
  { delay := .seconds 3600, revocation_hash := 7,
    commit_key := { valid := true, key := 30 },
    final_key := { valid := true, key := 31 },
    anch := .willCreateAnchor, min_depth := 1, commitment_fee := 200 }

/-- Claim C2 is contradicted by the code: accept_pkt_open reaches the
`return pkt_err(ctx, "Only one side can offer anchor")` statement, but the
body of pkt_err (packets.c:215-218) is abort(), so the process terminates
instead of an error packet being produced — despite the comment above the
handlers ("Process various packets: return an error packet on failure"). -/
theorem claim_C2_pkt_err_aborts :
    accept_pkt_open envW pW2 oW2 =
      .errPkt "Only one side can offer anchor"
        { pW2 with them := { pW2.them with offer_anchor := .openWithAnchor } } ∧
    pkt_err "Only one side can offer anchor" = .abortProcess ∧
    run_handler (accept_pkt_open envW pW2 oW2) = .aborted := by
  refine ⟨by decide, rfl, by decide⟩

/-! ## Claim C4: accept_pkt_update_complete performs no preimage check -/

/-- A concrete update_complete packet whose revealed preimage does not
hash to them.revocation_hash. -/
def uC4 : UpdateCompletePkt := { revocation_preimage := 100 }

/-- Claim C4 is contradicted by the code: the body of
accept_pkt_update_complete is a FIXME that returns NULL unconditionally,
so a packet whose preimage does not hash to the prior
them.revocation_hash (here SHA-256(100) = 101 ≠ 10) is still accepted:
no check_preimage call happens and the handler succeeds for every
environment, peer, and packet. -/
theorem claim_C4_no_preimage_check :
    check_preimage envW uC4.revocation_preimage pW.them.revocation_hash = false ∧
    accept_pkt_update_complete envW pW uC4 = .ok pW ∧
    (∀ env : Env, ∀ p : peer, ∀ u : UpdateCompletePkt,
      accept_pkt_update_complete env p u = .ok p) :=
  ⟨by decide, rfl, fun _ _ _ => rfl⟩

/-! ## Claim C3: accept_pkt_update_signature -/

/-- The peer as accept_pkt_update_signature leaves it once the packet's
signature has been decoded into the pending htlc_progress: `their_sig`
holds SIGHASH_ALL and the packet's signature, everything else is as
before. -/
def sig_staged (p : peer) (s : UpdateSignaturePkt) (cur : htlc_progress) : peer :=
  { p with current_htlc := some { cur with their_sig := { stype := SIGHASH_ALL, sig := s.sig.sig } } }

/-- The peer as accept_pkt_update_signature leaves it when the packet's
signature fails to decode: only the stype of the pending htlc_progress's
their_sig has been set to SIGHASH_ALL. -/
def sig_stype_set (p : peer) (cur : htlc_progress) : peer :=
  { p with current_htlc := some { cur with their_sig := { stype := SIGHASH_ALL, sig := cur.their_sig.sig } } }

/-- Claim C3 (amended): accept_pkt_update_signature verifies the peer's
signature over our new commitment transaction under them.commitkey and
the 2-of-2 redeemscript, then verifies that SHA-256 of the revealed
preimage equals them.revocation_hash, and only then swaps to the new
state via update_to_new_htlcs; when either verification fails it returns
an error and the committed channel state — cstate, us, them (keys,
commits, revocation hashes) and num_htlcs — is untouched, but the pending
htlc_progress's their_sig field has already been overwritten with the
packet's signature data before the verifications run. -/
theorem claim_C3_update_signature (env : Env) (p : peer)
    (s : UpdateSignaturePkt) (cur : htlc_progress)
    (h : p.current_htlc = some cur) :
    (s.sig.valid = false →
      accept_pkt_update_signature env p s =
        some (.errPkt "Malformed signature" (sig_stype_set p cur))) ∧
    (s.sig.valid = true →
      env.check_tx_sig cur.our_commit 0 p.anchor.redeemscript p.them.commitkey
          { stype := SIGHASH_ALL, sig := s.sig.sig } = false →
      accept_pkt_update_signature env p s =
        some (.errPkt "Bad signature" (sig_staged p s cur))) ∧
    (s.sig.valid = true →
      env.check_tx_sig cur.our_commit 0 p.anchor.redeemscript p.them.commitkey
          { stype := SIGHASH_ALL, sig := s.sig.sig } = true →
      check_preimage env s.revocation_preimage p.them.revocation_hash = false →
      accept_pkt_update_signature env p s =
        some (.errPkt "Bad revocation preimage" (sig_staged p s cur))) ∧
    (s.sig.valid = true →
      env.check_tx_sig cur.our_commit 0 p.anchor.redeemscript p.them.commitkey
          { stype := SIGHASH_ALL, sig := s.sig.sig } = true →
      check_preimage env s.revocation_preimage p.them.revocation_hash = true →
      accept_pkt_update_signature env p s =
        update_to_new_htlcs (sig_staged p s cur)) := by
  refine ⟨?_, ?_, ?_, ?_⟩
  · intro hv
    simp [accept_pkt_update_signature, h, hv, sig_stype_set]
  · intro hv hc
    simp [accept_pkt_update_signature, h, hv, hc, sig_staged]
  · intro hv hc hp
    simp [accept_pkt_update_signature, h, hv, hc, hp, sig_staged]
  · intro hv hc hp
    simp [accept_pkt_update_signature, h, hv, hc, hp, sig_staged]

/-- An environment whose signature check rejects everything. -/
def envC3 : Env := { envW with check_tx_sig := fun _ _ _ _ _ => false }

/-- A concrete update_signature packet with a decodable signature. -/
def sC3 : UpdateSignaturePkt :=
  { sig := { valid := true, sig := 7 }, revocation_preimage := 5 }

/-- Claim C3 fails as stated on the code: when the signature check fails
the handler does return "Bad signature", but the peer's state has been
mutated — the pending htlc_progress's their_sig now carries the rejected
packet's signature (stype SIGHASH_ALL, sig 7) instead of its previous
contents, so "no mutation of the peer's state occurs" is false. -/
theorem claim_C3_counterexample :
    accept_pkt_update_signature envC3 pW sC3 =
      some (.errPkt "Bad signature" (sig_staged pW sC3 curW)) ∧
    sig_staged pW sC3 curW ≠ pW := by
  refine ⟨by decide, by decide⟩

/-- A concrete update_signature packet whose signature fails to decode. -/
def sC3m : UpdateSignaturePkt :=
  { sig := { valid := false, sig := 0 }, revocation_preimage := 5 }

/-- Witness for the amended claim C3 at a concrete malformed packet. -/
theorem claim_C3_witness :
    pW.current_htlc = some curW ∧ sC3m.sig.valid = false ∧
    accept_pkt_update_signature envC3 pW sC3m =
      some (.errPkt "Malformed signature" (sig_stype_set pW curW)) :=
  ⟨rfl, rfl, (claim_C3_update_signature envC3 pW sC3m curW rfl).1 rfl⟩

/-! ## Claim C5: at most one pending HTLC proposal per peer -/

/-- Claim C5: at most one htlc_progress is pending per peer — an
update_add_htlc arriving while one is pending is rejected as unexpected
(spec-modelled state-machine gate), and accept_pkt_htlc_update only ever
installs its proposal when none is pending (its success implies the peer
had no pending proposal, and leaves exactly one installed). -/
theorem claim_C5_single_pending_htlc (env : Env) (p : peer)
    (u : UpdateAddHtlcPkt) :
    (∀ cur, p.current_htlc = some cur →
      dispatch_update_add_htlc env p u = .errPkt "Unexpected packet" p) ∧
    (∀ p', accept_pkt_htlc_update env p u = .ok p' →
      p.current_htlc = none ∧ p'.current_htlc.isSome = true) ∧
    (∀ p', dispatch_update_add_htlc env p u = .ok p' →
      p.current_htlc = none ∧ p'.current_htlc.isSome = true) := by
  have hacc : ∀ p', accept_pkt_htlc_update env p u = .ok p' →
      p.current_htlc = none ∧ p'.current_htlc.isSome = true := by
    intro p' hp'
    unfold accept_pkt_htlc_update at hp'
    split at hp'
    · exact absurd hp' (by simp)
    · split at hp'
      · exact absurd hp' (by simp)
      · split at hp'
        · exact absurd hp' (by simp)
        · rename_i hpend
          obtain rfl : _ = p' := handler_result.ok.inj hp'
          exact ⟨Option.not_isSome_iff_eq_none.mp (by simpa using hpend), rfl⟩
  refine ⟨?_, hacc, ?_⟩
  · intro cur hcur
    unfold dispatch_update_add_htlc
    simp [hcur]
  · intro p' hp'
    unfold dispatch_update_add_htlc at hp'
    split at hp'
    · exact absurd hp' (by simp)
    · exact hacc p' hp'

/-- A concrete update_add_htlc packet. -/
def uW5 : UpdateAddHtlcPkt :=
  { revocation_hash := 44, amount_msat := 300, r_hash := 9,
    expiry := .seconds 500000 }

/-- Witness for claim C5: the peer pW already has a pending proposal, so
the dispatch rejects a second update_add_htlc as unexpected. -/
theorem claim_C5_witness :
    pW.current_htlc = some curW ∧
    dispatch_update_add_htlc envW pW uW5 = .errPkt "Unexpected packet" pW :=
  ⟨rfl, (claim_C5_single_pending_htlc envW pW uW5).1 curW rfl⟩


/-! ## Claim C10: a failed open can leave them partially overwritten -/

/-- Claim C10: when accept_pkt_open fails at a validation performed after
the anchor-offer check ("Bad commitkey" or "Bad finalkey"), the peer's
them record has already been partially overwritten: them.offer_anchor,
them.locktime, them.mindepth and them.commit_fee hold the rejected
packet's values — a failed open does not leave the peer state
unchanged. -/
theorem claim_C10_open_leaves_mutation (env : Env) (p : peer)
    (o : OpenChannelPkt) (r : String) (p' : peer)
    (h : accept_pkt_open env p o = .errPkt r p')
    (hr : r = "Bad commitkey" ∨ r = "Bad finalkey") :
    (o.anch = .willCreateAnchor → p'.them.offer_anchor = .openWithAnchor) ∧
    (o.anch = .wontCreateAnchor → p'.them.offer_anchor = .openWithoutAnchor) ∧
    some p'.them.locktime = proto_to_rel_locktime o.delay ∧
    p'.them.mindepth = o.min_depth ∧
    p'.them.commit_fee = o.commitment_fee := by
  unfold accept_pkt_open at h
  split at h
  · exact absurd (handler_result.errPkt.inj h).1 (by rcases hr with rfl | rfl <;> decide)
  · rename_i lt hlt
    split at h
    · exact absurd (handler_result.errPkt.inj h).1 (by rcases hr with rfl | rfl <;> decide)
    · exact absurd (handler_result.errPkt.inj h).1 (by rcases hr with rfl | rfl <;> decide)
    · split at h
      · exact absurd (handler_result.errPkt.inj h).1 (by rcases hr with rfl | rfl <;> decide)
      · split at h
        · exact absurd (handler_result.errPkt.inj h).1 (by rcases hr with rfl | rfl <;> decide)
        · split at h
          · exact absurd (handler_result.errPkt.inj h).1 (by rcases hr with rfl | rfl <;> decide)
          · split at h
            · exact absurd (handler_result.errPkt.inj h).1 (by rcases hr with rfl | rfl <;> decide)
            · rename_i oa hanch
              simp only [] at h
              split at h
              · exact absurd (handler_result.errPkt.inj h).1 (by rcases hr with rfl | rfl <;> decide)
              · split at h
                · obtain ⟨-, rfl⟩ := handler_result.errPkt.inj h
                  refine ⟨?_, ?_, ?_, rfl, rfl⟩
                  · intro ha
                    rw [ha] at hanch
                    simpa using hanch.symm
                  · intro ha
                    rw [ha] at hanch
                    simpa using hanch.symm
                  · simp [hlt]
                · split at h
                  · obtain ⟨-, rfl⟩ := handler_result.errPkt.inj h
                    refine ⟨?_, ?_, ?_, rfl, rfl⟩
                    · intro ha
                      rw [ha] at hanch
                      simpa using hanch.symm
                    · intro ha
                      rw [ha] at hanch
                      simpa using hanch.symm
                    · simp [hlt]
                  · exact absurd h (by simp)

/-- A concrete open packet whose commit key fails to decode, arriving
after acceptable delay, depth, fee, and anchor-offer fields. -/
def oW10 : OpenChannelPkt :=
  { delay := .seconds 1200, revocation_hash := 7,
    commit_key := { valid := false, key := 0 },
    final_key := { valid := true, key := 31 },
    anch := .wontCreateAnchor, min_depth := 2, commitment_fee := 300 }

/-- The partially overwritten peer accept_pkt_open leaves behind when it
rejects oW10 with "Bad commitkey". -/
def pC10e : peer :=
  { pW2 with them := { pW2.them with
      offer_anchor := .openWithoutAnchor, locktime := .seconds 1200,
      mindepth := 2, commit_fee := 300 } }

/-- Witness for claim C10 at the concrete rejected packet oW10. -/
theorem claim_C10_witness :
    accept_pkt_open envW pW2 oW10 = .errPkt "Bad commitkey" pC10e ∧
    (oW10.anch = .wontCreateAnchor → pC10e.them.offer_anchor = .openWithoutAnchor) ∧
    some pC10e.them.locktime = proto_to_rel_locktime oW10.delay ∧
    pC10e.them.mindepth = oW10.min_depth ∧
    pC10e.them.commit_fee = oW10.commitment_fee :=
  ⟨by decide,
   (claim_C10_open_leaves_mutation envW pW2 oW10 "Bad commitkey" pC10e
      (by decide) (Or.inl rfl)).2.1,
   (claim_C10_open_leaves_mutation envW pW2 oW10 "Bad commitkey" pC10e
      (by decide) (Or.inl rfl)).2.2.1,
   (claim_C10_open_leaves_mutation envW pW2 oW10 "Bad commitkey" pC10e
      (by decide) (Or.inl rfl)).2.2.2.1,
   (claim_C10_open_leaves_mutation envW pW2 oW10 "Bad commitkey" pC10e
      (by decide) (Or.inl rfl)).2.2.2.2⟩

/-! ## Claim C8: connection_fee -/

/-- The fee formula as the specification words it (spec §4.5 cost model
and §8 boundary behavior), over mathematical integers, for comparison
with the source's connection_fee: INFINITE when proportional_fee · m
would overflow signed 64-bit, otherwise
base_fee + (proportional_fee · m) / 1,000,000. -/
def connection_fee_spec (c : node_connection) (msatoshi : Nat) : Int :=
  if mul_overflows_s64 c.proportional_fee msatoshi then INFINITE
  else c.base_fee + c.proportional_fee * msatoshi / 1000000

/-- A connection with a negative proportional fee. -/
def cC8 : node_connection :=
  { src := 0, dst := 1, base_fee := 0, proportional_fee := -1, delay := 0,
    min_blocks := 0 }

/-- Claim C8 fails as stated on the code: for a connection with
proportional_fee = −1 and m = 1,000,000 the multiplication does not
overflow signed 64-bit, but the C computes with the s32 converted to u64
(2^64 − 1) and returns 18446744073708 where the claimed formula gives
base_fee + (−1 · 1,000,000) / 1,000,000 = −1. -/
theorem claim_C8_counterexample :
    connection_fee cC8 1000000 = 18446744073708 ∧
    connection_fee_spec cC8 1000000 = -1 ∧
    (18446744073708 : Int) ≠ -1 := by
  refine ⟨by decide, by decide, by decide⟩

/-- Claim C8 (amended): for every connection whose proportional_fee is
non-negative and every amount m, connection_fee returns INFINITE when
proportional_fee · m would overflow signed 64-bit and otherwise returns
base_fee + (proportional_fee · m) / 1,000,000; for negative
proportional_fee the C converts the s32 to u64 before multiplying and the
spec formula does not hold. -/
theorem claim_C8_connection_fee (c : node_connection) (m : Nat)
    (hprop : 0 ≤ c.proportional_fee) :
    connection_fee c m = connection_fee_spec c m := by
  unfold connection_fee connection_fee_spec
  by_cases hov : mul_overflows_s64 c.proportional_fee (m : Int) = true
  · simp [hov]
  · simp only [hov, if_false, Bool.false_eq_true, if_neg, not_false_iff]
    have hlt : c.proportional_fee * (m : Int) < 2 ^ 63 := by
      by_contra hge
      exact hov (by
        unfold mul_overflows_s64
        simp only [Bool.or_eq_true, decide_eq_true_eq]
        right
        omega)
    rcases Nat.eq_zero_or_pos m with hm | hm
    · subst hm
      norm_num [u64_of_int, s64_of_u64, U64MOD]
    · have hple : c.proportional_fee ≤ c.proportional_fee * (m : Int) :=
        le_mul_of_one_le_right hprop (by exact_mod_cast hm)
      have hp63 : c.proportional_fee < 2 ^ 63 := lt_of_le_of_lt hple hlt
      have hu : u64_of_int c.proportional_fee = c.proportional_fee.toNat := by
        unfold u64_of_int U64MOD
        rw [Int.emod_eq_of_lt hprop (by push_cast; omega)]
      rw [hu]
      have hcast : ((c.proportional_fee.toNat * m : Nat) : Int) =
          c.proportional_fee * (m : Int) := by
        push_cast [Int.toNat_of_nonneg hprop]
        ring
      have hsmall : c.proportional_fee.toNat * m < U64MOD := by
        have : ((c.proportional_fee.toNat * m : Nat) : Int) < 2 ^ 64 := by
          rw [hcast]; omega
        unfold U64MOD
        exact_mod_cast this
      rw [Nat.mod_eq_of_lt hsmall]
      have hdivsmall : c.proportional_fee.toNat * m / 1000000 < 2 ^ 63 := by
        have h1 : c.proportional_fee.toNat * m / 1000000 ≤ c.proportional_fee.toNat * m :=
          Nat.div_le_self _ _
        have h2 : ((c.proportional_fee.toNat * m : Nat) : Int) < 2 ^ 63 := by
          rw [hcast]; omega
        have h3 : c.proportional_fee.toNat * m < 2 ^ 63 := by exact_mod_cast h2
        omega
      unfold s64_of_u64
      rw [if_pos hdivsmall]
      have : ((c.proportional_fee.toNat * m / 1000000 : Nat) : Int) =
          c.proportional_fee * (m : Int) / 1000000 := by
        rw [Int.ofNat_tdiv, hcast,
          Int.tdiv_eq_ediv (by positivity) (by norm_num)]
        norm_num
      rw [this]

/-- A concrete connection with non-negative proportional fee. -/
def cC8w : node_connection :=
  { src := 0, dst := 1, base_fee := 1000, proportional_fee := 1000,
    delay := 0, min_blocks := 0 }

/-- Witness for the amended claim C8: at proportional_fee 1000 and
m = 1,000,000 both sides give 1000 + 1000 · 1,000,000 / 1,000,000 = 2000. -/
theorem claim_C8_witness :
    (0 : Int) ≤ cC8w.proportional_fee ∧
    connection_fee cC8w 1000000 = connection_fee_spec cC8w 1000000 ∧
    connection_fee cC8w 1000000 = 2000 :=
  ⟨by decide, claim_C8_connection_fee cC8w 1000000 (by decide), by decide⟩

/-! ## Claim C9: add_connection is an upsert keyed on the ordered pair -/

/-- Setting the freshly appended last element of a list. -/
lemma set_length_append_singleton {α : Type} (l : List α) (a b : α) :
    (l ++ [a]).set l.length b = l ++ [b] := by
  induction l with
  | nil => rfl
  | cons x l ih => simp [List.cons_append, ih]

/-- What add_connection does to the central connection list: overwrite
the first connection of the ordered pair, or append a fresh one
(node creation never touches the connection list). -/
lemma add_connection_conns (g : RGraph) (f t b d mb : Nat) (pr : Int) :
    (add_connection g f t b pr d mb).conns =
      match g.conns.findIdx? (conn_matches f t) with
      | some i => g.conns.set i { src := f, dst := t, base_fee := b, proportional_fee := pr, delay := d, min_blocks := mb }
      | none => g.conns ++ [{ src := f, dst := t, base_fee := b, proportional_fee := pr, delay := d, min_blocks := mb }] := by
  simp only [add_connection, get_or_make_connection]
  have h1 : (if f ∈ g.nodes then g else new_node g f).conns = g.conns := by
    split <;> rfl
  have h2 : (if t ∈ (if f ∈ g.nodes then g else new_node g f).nodes
      then (if f ∈ g.nodes then g else new_node g f)
      else new_node (if f ∈ g.nodes then g else new_node g f) t).conns = g.conns := by
    split <;> split <;> rfl
  rw [h2]
  split <;> dsimp only
  · rw [h2]
  · exact set_length_append_singleton g.conns _ _

/-- Core list fact behind the upsert: overwriting the first match — or
appending when there is none — leaves exactly one matching element, the
new one, provided at most one matched before. -/
lemma upsert_filter (q : node_connection → Bool) (c : node_connection)
    (hc : q c = true) :
    ∀ l : List node_connection, (l.filter q).length ≤ 1 →
      (match l.findIdx? q with
       | some i => l.set i c
       | none => l ++ [c]).filter q = [c] := by
  intro l
  induction l with
  | nil =>
    intro _
    simp [hc]
  | cons a l ih =>
    intro hlen
    by_cases ha : q a = true
    · have hfi : (a :: l).findIdx? q = some 0 := by
        simp [List.findIdx?_cons, ha]
      rw [hfi]
      have hfl : l.filter q = [] := by
        rw [List.filter_cons_of_pos ha] at hlen
        simp only [List.length_cons] at hlen
        exact List.length_eq_zero.mp (by omega)
      simp [List.filter_cons_of_pos hc, hfl]
    · have hfi : (a :: l).findIdx? q = (l.findIdx? q).map (· + 1) := by
        simp [List.findIdx?_cons, ha, List.findIdx?_succ]
      rw [hfi]
      have hlen' : (l.filter q).length ≤ 1 := by
        rwa [List.filter_cons_of_neg (by simp [ha])] at hlen
      have hres := ih hlen'
      cases hcase : l.findIdx? q with
      | none =>
        rw [hcase] at hres
        simp only [hcase, Option.map_none']
        rw [List.cons_append, List.filter_cons_of_neg (by simp [ha])]
        exact hres
      | some j =>
        rw [hcase] at hres
        simp only [hcase, Option.map_some']
        rw [List.set_cons_succ, List.filter_cons_of_neg (by simp [ha])]
        exact hres

/-- Claim C9: calling add_connection twice with the same ordered pair
(src, dst) — on any graph holding at most one edge for that pair, as
every graph built by add_connection does — yields a graph with exactly
one edge for the pair, and that edge's base_fee, proportional_fee, delay
and min_blocks are the second call's arguments. -/
theorem claim_C9_add_connection (g : RGraph) (f t : Nat)
    (b1 d1 mb1 b2 d2 mb2 : Nat) (pr1 pr2 : Int)
    (h : (pair_conns g f t).length ≤ 1) :
    pair_conns (add_connection (add_connection g f t b1 pr1 d1 mb1) f t b2 pr2 d2 mb2) f t =
      [{ src := f, dst := t, base_fee := b2, proportional_fee := pr2,
         delay := d2, min_blocks := mb2 }] := by
  have hc1 : conn_matches f t { src := f, dst := t, base_fee := b1, proportional_fee := pr1, delay := d1, min_blocks := mb1 } = true := by
    simp [conn_matches]
  have hc2 : conn_matches f t { src := f, dst := t, base_fee := b2, proportional_fee := pr2, delay := d2, min_blocks := mb2 } = true := by
    simp [conn_matches]
  have h1 : pair_conns (add_connection g f t b1 pr1 d1 mb1) f t =
      [{ src := f, dst := t, base_fee := b1, proportional_fee := pr1, delay := d1, min_blocks := mb1 }] := by
    unfold pair_conns
    rw [add_connection_conns]
    exact upsert_filter _ _ hc1 g.conns h
  unfold pair_conns
  rw [add_connection_conns]
  apply upsert_filter _ _ hc2
  have : (add_connection g f t b1 pr1 d1 mb1).conns.filter (conn_matches f t) =
      [{ src := f, dst := t, base_fee := b1, proportional_fee := pr1, delay := d1, min_blocks := mb1 }] := h1
  rw [this]
  simp

/-- Witness for claim C9: two add_connection calls on the empty graph. -/
theorem claim_C9_witness :
    (pair_conns { nodes := [], conns := [] } 5 7).length ≤ 1 ∧
    pair_conns (add_connection (add_connection { nodes := [], conns := [] } 5 7 10 20 30 40) 5 7 11 21 31 41) 5 7 =
      [{ src := 5, dst := 7, base_fee := 11, proportional_fee := 21,
         delay := 31, min_blocks := 41 }] :=
  ⟨by decide, claim_C9_add_connection { nodes := [], conns := [] } 5 7
    10 30 40 11 31 41 20 21 (by decide)⟩

/-! ## Claim C7: clear_bfg and route-query seeding -/

/-- A one-node graph. -/
def gC7 : RGraph := { nodes := [0], conns := [] }

/-- A scratch table left dirty by an earlier query: every entry still
carries a previous-edge pointer. -/
def tC7 : Bfg := fun _ _ => { total := 7, risk := 9, prev := some 3 }

/-- Claim C7 fails as stated on the code: clear_bfg only assigns total
and risk (routing.c:226-228) and find_route's seeding only assigns
total and risk (routing.c:303-304); neither resets prev, so after
clearing, node 0's entry still holds prev = some 3 where the claim says
prev = nil. -/
theorem claim_C7_counterexample :
    clear_bfg gC7 2 tC7 0 0 = { total := INFINITE, risk := 0, prev := some 3 } ∧
    ({ total := INFINITE, risk := 0, prev := some 3 } : BfgEntry) ≠
      { total := INFINITE, risk := 0, prev := none } := by
  refine ⟨by decide, by decide⟩

/-- Claim C7 (amended): at the start of a route query clear_bfg sets
bfg[h].total = INFINITE and bfg[h].risk = 0 for every node in the graph
and every h in [0, MAX_HOPS], leaving prev unchanged; then find_route
sets the payment destination's bfg[0].total to msatoshi_requested and
bfg[0].risk to 0 (prev again unchanged), and runs the relaxation passes
on exactly that table. -/
theorem claim_C7_clear_bfg (g : RGraph) (maxHops : Nat) (t : Bfg)
    (toId msatoshi riskfactor : Nat) (nid h : Nat)
    (hn : nid ∈ g.nodes) (hh : h ≤ maxHops) :
    clear_bfg g maxHops t nid h =
      { total := INFINITE, risk := 0, prev := (t nid h).prev } ∧
    bfg_set_source toId msatoshi (clear_bfg g maxHops t) toId 0 =
      { total := (msatoshi : Int), risk := 0, prev := (t toId 0).prev } ∧
    bfg_table g toId msatoshi riskfactor maxHops t =
      bfg_run g riskfactor maxHops
        (bfg_set_source toId msatoshi (clear_bfg g maxHops t)) := by
  refine ⟨?_, ?_, rfl⟩
  · unfold clear_bfg
    rw [if_pos ⟨hn, hh⟩]
  · unfold bfg_set_source
    rw [if_pos ⟨rfl, rfl⟩]
    unfold clear_bfg
    split <;> rfl

/-- Witness for the amended claim C7 at the concrete dirty table tC7. -/
theorem claim_C7_witness :
    clear_bfg gC7 2 tC7 0 1 = { total := INFINITE, risk := 0, prev := (tC7 0 1).prev } ∧
    bfg_set_source 5 777 (clear_bfg gC7 2 tC7) 5 0 =
      { total := (777 : Int), risk := 0, prev := (tC7 5 0).prev } ∧
    bfg_table gC7 5 777 1 2 tC7 =
      bfg_run gC7 1 2 (bfg_set_source 5 777 (clear_bfg gC7 2 tC7)) :=
  claim_C7_clear_bfg gC7 2 tC7 5 777 1 0 1 (by decide) (by decide)

/-! ## Claim C6: find_route selection and extraction -/

/-- select_best over zero candidate hop counts stays at 0. -/
lemma select_best_zero (t : Bfg) (l : Nat) : select_best t l 0 = 0 := rfl

/-- Unfolding one step of the selection loop. -/
lemma select_best_succ (t : Bfg) (l n : Nat) :
    select_best t l (n + 1) =
      if (t l (n + 1)).total < (t l (select_best t l n)).total then n + 1
      else select_best t l n := by
  unfold select_best
  rw [List.range_succ, List.foldl_append]
  rfl

/-- The selection loop returns the smallest hop count attaining the
minimum total (strict < keeps the first-found shorter route). -/
lemma select_best_spec (t : Bfg) (l : Nat) : ∀ n : Nat,
    select_best t l n ≤ n ∧
    (∀ i, i ≤ n → (t l (select_best t l n)).total ≤ (t l i).total) ∧
    (∀ i, i ≤ n → (t l i).total = (t l (select_best t l n)).total →
      select_best t l n ≤ i) := by
  intro n
  induction n with
  | zero =>
    rw [select_best_zero]
    refine ⟨le_refl 0, ?_, ?_⟩
    · intro i hi
      rw [Nat.le_zero.mp hi]
    · intro i hi _
      rw [Nat.le_zero.mp hi]
  | succ n ih =>
    obtain ⟨hle, hmin, hleast⟩ := ih
    rw [select_best_succ]
    by_cases hlt : (t l (n + 1)).total < (t l (select_best t l n)).total
    · rw [if_pos hlt]
      refine ⟨le_refl _, ?_, ?_⟩
      · intro i hi
        rcases Nat.lt_or_ge i (n + 1) with h' | h'
        · exact le_trans (le_of_lt hlt) (hmin i (by omega))
        · have hi1 : i = n + 1 := by omega
          rw [hi1]
      · intro i hi heq
        rcases Nat.lt_or_ge i (n + 1) with h' | h'
        · exfalso
          have hge := hmin i (by omega)
          rw [heq] at hge
          exact absurd hlt (not_lt.mpr hge)
        · omega
    · rw [if_neg hlt]
      refine ⟨by omega, ?_, ?_⟩
      · intro i hi
        rcases Nat.lt_or_ge i (n + 1) with h' | h'
        · exact hmin i (by omega)
        · have hi1 : i = n + 1 := by omega
          rw [hi1]
          exact not_lt.mp hlt
      · intro i hi heq
        rcases Nat.lt_or_ge i (n + 1) with h' | h'
        · exact hleast i (by omega) heq
        · omega

/-- Claim C6 (amended): find_route selects the hop count best in
[0, MAX_HOPS] minimizing the local node's bfg[best].total, breaking ties
toward the smaller index via strict <; it returns no route when
bfg[best].total ≥ INFINITE; otherwise the first hop is
local.bfg[best].prev and the remaining path is recovered by walking prev
pointers from that hop's destination — but the fee reported is
(first hop's destination).bfg[best − 1].total − msatoshi_requested, the
total at the node after the first hop (the local node's own first-hop
fee is not part of the reported fee), not
local.bfg[best].total − msatoshi_requested as claimed. -/
theorem claim_C6_find_route (g : RGraph)
    (localId toId msatoshi riskfactor maxHops : Nat)
    (hasPeer : Nat → Bool) (t0 : Bfg) (tb : Bfg) (best : Nat)
    (htb : tb = bfg_table g toId msatoshi riskfactor maxHops t0)
    (hbest : best = select_best tb localId maxHops)
    (hto : toId ∈ g.nodes) :
    (best ≤ maxHops ∧
      (∀ i, i ≤ maxHops → (tb localId best).total ≤ (tb localId i).total) ∧
      (∀ i, i ≤ maxHops → (tb localId i).total = (tb localId best).total →
        best ≤ i)) ∧
    (INFINITE ≤ (tb localId best).total →
      find_route g localId toId msatoshi riskfactor maxHops hasPeer t0 = none) ∧
    (∀ res, find_route g localId toId msatoshi riskfactor maxHops hasPeer t0 = some res →
      (tb localId best).total < INFINITE ∧
      ∃ cIdx c, (tb localId best).prev = some cIdx ∧
        g.conns.get? cIdx = some c ∧
        res.firstPeer = c.dst ∧ hasPeer c.dst = true ∧
        res.fee = (tb c.dst (best - 1)).total - (msatoshi : Int) ∧
        ∃ fin, walk_prev g tb c.dst (best - 1) = some (res.route, fin)) := by
  subst htb
  subst hbest
  refine ⟨select_best_spec _ _ _, ?_, ?_⟩
  · intro hinf
    unfold find_route
    rw [if_pos hto]
    simp only []
    rw [if_pos hinf]
  · intro res hres
    unfold find_route at hres
    rw [if_pos hto] at hres
    simp only [] at hres
    split at hres
    · exact absurd hres (by simp)
    · rename_i hninf
      refine ⟨not_le.mp hninf, ?_⟩
      split at hres
      · exact absurd hres (by simp)
      · rename_i cIdx hprev
        split at hres
        · exact absurd hres (by simp)
        · rename_i c hget
          split at hres
          · exact absurd hres (by simp)
          · rename_i route fin hwalk
            split at hres
            · rename_i hpeer
              obtain rfl := Option.some.inj hres
              exact ⟨cIdx, c, hprev, hget, rfl, hpeer, rfl, fin, hwalk⟩
            · exact absurd hres (by simp)

/-- A fresh scratch table (all entries infinite, no stale prev). -/
def bfg_init : Bfg := fun _ _ => { total := INFINITE, risk := 0, prev := none }

/-- A two-node graph with the single connection 0 → 1 charging a
1000 msat base fee. -/
def gC6 : RGraph :=
  { nodes := [0, 1],
    conns := [{ src := 0, dst := 1, base_fee := 1000, proportional_fee := 0,
                delay := 0, min_blocks := 0 }] }

/-- The table find_route computes for a 1,000,000 msat payment from node
0 to node 1 over gC6 (riskfactor 0, MAX_HOPS 3). -/
def tbC6 : Bfg := bfg_table gC6 1 1000000 0 3 bfg_init

/-- The hop count the selection loop picks on that table. -/
def bestC6 : Nat := select_best tbC6 0 3

set_option maxRecDepth 100000 in
/-- Claim C6 fails as stated on the fee component: routing one hop of
1,000,000 msat over gC6, find_route reports fee 0 (the total at node 1
with best − 1 = 0 hops, minus the requested amount), while the claimed
formula local.bfg[best].total − msatoshi gives the 1000 msat base fee of
the first hop. -/
theorem claim_C6_counterexample :
    find_route gC6 0 1 1000000 0 3 (fun _ => true) bfg_init =
      some { firstPeer := 1, fee := 0, route := [] } ∧
    (tbC6 0 bestC6).total - 1000000 = 1000 ∧
    (0 : Int) ≠ 1000 := by
  refine ⟨by decide, by decide, by decide⟩

/-- A two-node graph with no connections at all. -/
def gW6 : RGraph := { nodes := [0, 1], conns := [] }

set_option maxRecDepth 100000 in
/-- Witness for the amended claim C6: on a graph with no connections the
local node's best total stays at INFINITE and find_route reports no
route. -/
theorem claim_C6_witness :
    find_route gW6 0 1 5 0 2 (fun _ => true) bfg_init = none :=
  (claim_C6_find_route gW6 0 1 5 0 2 (fun _ => true) bfg_init
      (bfg_table gW6 1 5 0 2 bfg_init)
      (select_best (bfg_table gW6 1 5 0 2 bfg_init) 0 2)
      rfl rfl (by decide)).2.1 (by decide)
